import Mathlib

/-!
Verification of the track-matching and reconciliation engine in
`src/sync.py` (spotify2tidal).

The Python source is shallowly embedded: pure functions become Lean
functions over `List Char` / `String`, machine integers become `Nat`/`Int`,
Python float division of integer milliseconds by 1000 becomes exact
rational division, fallible calls return `Option`/`Except`, and the
multiprocessing pool is modelled by an explicit completion order.

Third-party library functions used by the source (`unidecode`, the
`thefuzz` scorers, `tidalapi` playlist mutation) are not part of the
repository; they are modelled from the specification's description of
them, and each such definition is marked in its doc comment.
-/

namespace SpotifyToTidal

/-! ## Data model (spec section 3, src/sync.py field accesses) -/

structure SpotifyArtist where
  name : String
deriving DecidableEq

structure SpotifyAlbum where
  name : String
deriving DecidableEq

/-- Source track as read from the Spotify playlist
(`fields="next,items(track(name,artists(name),duration_ms,album(name)))"`). -/
structure SpotifyTrack where
  name : String
  artists : List SpotifyArtist
  album : SpotifyAlbum
  duration_ms : Nat
deriving DecidableEq

structure TidalArtist where
  name : String
deriving DecidableEq

structure TidalAlbum where
  name : String
deriving DecidableEq

/-- Candidate track from the Tidal catalog search: `track.id`, `track.name`,
`track.artists`, `track.album.name`, `track.duration` (seconds). -/
structure TidalTrack where
  id : Nat
  name : String
  artists : List TidalArtist
  album : TidalAlbum
  duration : Nat
deriving DecidableEq

deriving instance DecidableEq for Except

/-! ## Normalizer: `simplify` (src/sync.py lines 19-35)

`simplify` is
`result = unidecode(input_string).lower()`, then the three literal
replacements `' x ' -> ' '`, `' vs ' -> ' '`, `' - ' -> ' '` in dict
order, then three regex substitutions in dict order:
edition-word removal, featuring-clause removal, and the character-class
filter.  Each regex is embedded as a direct scanner reproducing Python
`re.sub` semantics for that specific pattern (leftmost match, alternatives
tried left to right, greedy `.*` not crossing a newline, scan resumes
after each replaced span). -/

/-- Modelled from the spec: step (1) "transliterate non-ASCII characters to
their closest ASCII representation" (the `unidecode` library, identity on
ASCII code points).  The library's transliteration table for non-ASCII
code points is not in the repository; those code points are mapped to the
empty string here.  No claim exercises a non-ASCII input, and every
argument below about `simplify`'s output is independent of this table
because the final character-class filter only keeps ASCII characters. -/
def unidecodeChar (c : Char) : List Char :=
  if c.toNat < 128 then [c] else []

def unidecodeList (l : List Char) : List Char :=
  (l.map unidecodeChar).flatten

/-- Python `str.lower` on the ASCII output of `unidecode`. -/
def asciiLowerChar (c : Char) : Char :=
  if 65 ≤ c.toNat ∧ c.toNat ≤ 90 then Char.ofNat (c.toNat + 32) else c

def asciiLower (l : List Char) : List Char :=
  l.map asciiLowerChar

/-- Tests whether `pat` is an initial segment of `l`. -/
def patHere : List Char → List Char → Bool
  | [], _ => true
  | _ :: _, [] => false
  | p :: ps, c :: cs => p == c && patHere ps cs

/-- Python `str.replace(pat, ' ')`: scan left to right, replace each
non-overlapping occurrence by one space, resume after the replacement.
The fuel argument bounds the recursion; it is instantiated with the
length of the list, which suffices because every step consumes at least
one character. -/
def replaceAllAux (pat : List Char) : Nat → List Char → List Char
  | 0, l => l
  | fuel + 1, l =>
    if patHere pat l then
      ' ' :: replaceAllAux pat fuel (l.drop pat.length)
    else
      match l with
      | [] => []
      | c :: rest => c :: replaceAllAux pat fuel rest

def replaceAll (pat l : List Char) : List Char :=
  replaceAllAux pat l.length l

/-- The three join-marker replacements, applied in dict order:
`' x '`, `' vs '`, `' - '`, each replaced by a single space. -/
def replJoins (l : List Char) : List Char :=
  replaceAll [' ', '-', ' '] (replaceAll [' ', 'v', 's', ' '] (replaceAll [' ', 'x', ' '] l))

/-- First regex `(original mix|extended mix|radio edit|mixed|remastered|version)`:
if one of the six literal words starts at the current position, return its
length.  No two alternatives can match at the same position, so the
alternation order is immaterial here. -/
def editionHere (l : List Char) : Option Nat :=
  if patHere ['o', 'r', 'i', 'g', 'i', 'n', 'a', 'l', ' ', 'm', 'i', 'x'] l then some 12
  else if patHere ['e', 'x', 't', 'e', 'n', 'd', 'e', 'd', ' ', 'm', 'i', 'x'] l then some 12
  else if patHere ['r', 'a', 'd', 'i', 'o', ' ', 'e', 'd', 'i', 't'] l then some 10
  else if patHere ['m', 'i', 'x', 'e', 'd'] l then some 5
  else if patHere ['r', 'e', 'm', 'a', 's', 't', 'e', 'r', 'e', 'd'] l then some 10
  else if patHere ['v', 'e', 'r', 's', 'i', 'o', 'n'] l then some 7
  else none

def editionSubAux : Nat → List Char → List Char
  | 0, l => l
  | fuel + 1, l =>
    match editionHere l with
    | some e => editionSubAux fuel (l.drop e)
    | none =>
      match l with
      | [] => []
      | c :: rest => c :: editionSubAux fuel rest

def editionSub (l : List Char) : List Char :=
  editionSubAux l.length l

/-- Regex atom `ft.` : literal `f`, literal `t`, then `.` (any character
except newline). -/
def isFtDot : List Char → Bool
  | 'f' :: 't' :: c :: _ => c != '\n'
  | _ => false

/-- Regex atom `feat.`. -/
def isFeatDot : List Char → Bool
  | 'f' :: 'e' :: 'a' :: 't' :: c :: _ => c != '\n'
  | _ => false

/-- Regex atom `prod.`. -/
def isProdDot : List Char → Bool
  | 'p' :: 'r' :: 'o' :: 'd' :: c :: _ => c != '\n'
  | _ => false

/-- Regex atom `[(]with` : all five characters literal. -/
def isParenWith : List Char → Bool
  | '(' :: 'w' :: 'i' :: 't' :: 'h' :: _ => true
  | _ => false

/-- Group `(ft.|feat.|prod.|[(]with)` of the first alternative: returns the
number of characters consumed.  At a fixed position at most one
alternative can match (`ft.` forces `t` where `feat.` forces `e`), so the
alternation order is immaterial. -/
def g1Here (l : List Char) : Option Nat :=
  if isFtDot l then some 3
  else if isFeatDot l then some 5
  else if isProdDot l then some 5
  else if isParenWith l then some 5
  else none

/-- Group `(ft.|feat.|prod.)` of the second alternative. -/
def g2Here (l : List Char) : Bool :=
  isFtDot l || isFeatDot l || isProdDot l

/-- Length of the maximal newline-free initial segment: the span `.*` can
cover. -/
def nlFreeLen (l : List Char) : Nat :=
  (l.takeWhile (fun c => c != '\n')).length

/-- Index of the last occurrence of `c` in `l`, the position a greedy
`.*\)` backtracks to. -/
def lastIdxOf (c : Char) : List Char → Option Nat
  | [] => none
  | a :: rest =>
    match lastIdxOf c rest with
    | some k => some (k + 1)
    | none => if a == c then some 0 else none

/-- First alternative `[(]?(ft.|feat.|prod.|[(]with).*\)` at the current
position: optionally consume `(` (greedily, as Python does), match the
group, then `.*\)` succeeds iff a `)` occurs in the newline-free stretch
after the group, matching up to the last such `)`.  Returns the total
number of characters consumed.  When the leading `(` is consumed the
group can never also match without it (that would need the group to match
both at the `(` and right after it, which no alternative allows), so the
two attempts below are exclusive. -/
def tryACore (off : Nat) (rest : List Char) : Option Nat :=
  match g1Here rest with
  | some g =>
    match lastIdxOf ')' ((rest.drop g).takeWhile (fun c => c != '\n')) with
    | some k => some (off + g + k + 1)
    | none => none
  | none => none

def tryA (l : List Char) : Option Nat :=
  match l with
  | [] => tryACore 0 []
  | c :: rest =>
    if c = '(' then
      match tryACore 1 rest with
      | some e => some e
      | none => tryACore 0 (c :: rest)
    else
      tryACore 0 (c :: rest)

/-- Whole pattern `[(]?(ft.|feat.|prod.|[(]with).*\)|(ft.|feat.|prod.).*`
at the current position: the first alternative is preferred; the second
consumes the group and then the rest of the newline-free stretch. -/
def tryHere (l : List Char) : Option Nat :=
  match tryA l with
  | some e => some e
  | none => if g2Here l then some (nlFreeLen l) else none

def featSubAux : Nat → List Char → List Char
  | 0, l => l
  | fuel + 1, l =>
    match tryHere l with
    | some e => featSubAux fuel (l.drop e)
    | none =>
      match l with
      | [] => []
      | c :: rest => c :: featSubAux fuel rest

/-- Second regex: the featuring/production-credit clause removal. -/
def featSub (l : List Char) : List Char :=
  featSubAux l.length l

/-- Character class of the third regex `[^a-z0-9$!&?.\'\- ]`: the
characters that survive the final filter. -/
def isAllowed (c : Char) : Bool :=
  (97 ≤ c.toNat && c.toNat ≤ 122) || (48 ≤ c.toNat && c.toNat ≤ 57) ||
    c.toNat == 36 || c.toNat == 33 || c.toNat == 38 || c.toNat == 63 ||
    c.toNat == 46 || c.toNat == 39 || c.toNat == 45 || c.toNat == 32

def asciiFilter (l : List Char) : List Char :=
  l.filter isAllowed

/-- Everything `simplify` does before the featuring-clause regex:
transliterate, lowercase, replace join markers, remove edition words. -/
def preStrip (s : String) : List Char :=
  editionSub (replJoins (asciiLower (unidecodeList s.data)))

/-- The Normalizer `simplify` (src/sync.py lines 19-35). -/
def simplify (s : String) : String :=
  String.mk (asciiFilter (featSub (preStrip s)))

/-! ## Fuzzy scorers (the `thefuzz` library)

The spec (section 4.2) pins the three scorers down as: plain ratio =
"standard normalized edit-distance similarity" on a 0-100 scale,
partial ratio = "best-aligned substring edit-distance-derived score",
token-set ratio = "ratio computed after tokenizing both strings into
sorted unique-token sets and comparing set intersections/unions".  The
library is not part of the repository, so the scorers are modelled from
those descriptions.  The claims below depend only on two facts about
them: identical strings score 100 and strings with no common character
score 0, both of which every witness checks by evaluation. -/

/-- One row update of the longest-common-subsequence dynamic program:
given the previous row (tail aligned with `bs`) and the value to the
left in the new row, produce the rest of the new row. -/
def lcsRowAux (c : Char) : List Char → List Nat → Nat → List Nat
  | [], _, _ => []
  | _ :: _, [], _ => []
  | bj :: bs, oldDiag :: oldRest, left =>
    let cur := if c == bj then oldDiag + 1 else max (oldRest.headD 0) left
    cur :: lcsRowAux c bs oldRest cur

def lcsRow (c : Char) (b : List Char) (old : List Nat) : List Nat :=
  0 :: lcsRowAux c b old 0

/-- Length of a longest common subsequence. -/
def lcsLen (a b : List Char) : Nat :=
  (a.foldl (fun old c => lcsRow c b old) (List.replicate (b.length + 1) 0)).getLastD 0

/-- Modelled from the spec: plain ratio, the normalized indel similarity
`round(100 * (1 - dist / (len a + len b)))` with
`dist = len a + len b - 2 * lcs`, i.e. `round(200 * lcs / (len a + len b))`,
and 100 for two empty strings. -/
def ratio_score (a b : List Char) : Nat :=
  let t := a.length + b.length
  if t = 0 then 100 else (200 * lcsLen a b + t / 2) / t

/-- All contiguous substrings of `l` of length `n`. -/
def windowsOfLen (n : Nat) : List Char → List (List Char)
  | [] => if n = 0 then [[]] else []
  | c :: rest =>
    if n ≤ (c :: rest).length then (c :: rest).take n :: windowsOfLen n rest else []

/-- Modelled from the spec: partial ratio, the best plain-ratio score of
the shorter string against any contiguous substring of the longer string
of the same length. -/
def window_score (a b : List Char) : Nat :=
  let p := if a.length ≤ b.length then (a, b) else (b, a)
  (windowsOfLen p.1.length p.2).foldl (fun m w => max m (ratio_score p.1 w)) 0

/-- Splits on runs of spaces, dropping empty tokens (Python `str.split`). -/
def splitWsAux : List Char → List Char → List (List Char)
  | [], acc => if acc.isEmpty then [] else [acc.reverse]
  | c :: rest, acc =>
    if c == ' ' then
      if acc.isEmpty then splitWsAux rest [] else acc.reverse :: splitWsAux rest []
    else
      splitWsAux rest (c :: acc)

def splitWs (l : List Char) : List (List Char) :=
  splitWsAux l []

/-- Lexicographic comparison of words by code point. -/
def wordLE : List Char → List Char → Bool
  | [], _ => true
  | _ :: _, [] => false
  | x :: xs, y :: ys =>
    if x.toNat < y.toNat then true
    else if y.toNat < x.toNat then false
    else wordLE xs ys

def insertWord (w : List Char) : List (List Char) → List (List Char)
  | [] => [w]
  | v :: rest => if wordLE w v then w :: v :: rest else v :: insertWord w rest

def sortWords : List (List Char) → List (List Char)
  | [] => []
  | w :: rest => insertWord w (sortWords rest)

/-- Removes adjacent duplicates (applied after sorting, this gives the
unique-token set). -/
def dedupAdj : List (List Char) → List (List Char)
  | [] => []
  | [w] => [w]
  | w :: v :: rest => if w = v then dedupAdj (v :: rest) else w :: dedupAdj (v :: rest)

def sortUniq (ws : List (List Char)) : List (List Char) :=
  dedupAdj (sortWords ws)

/-- Joins words with single spaces. -/
def joinWords : List (List Char) → List Char
  | [] => []
  | [w] => w
  | w :: v :: rest => w ++ ' ' :: joinWords (v :: rest)

/-- Modelled from the spec: token-set ratio.  Both strings are tokenized
into sorted unique-token sets; the score is the best plain ratio among
the joined intersection and the two joined intersection-plus-difference
combinations. -/
def token_set_score (a b : List Char) : Nat :=
  let wa := sortUniq (splitWs a)
  let wb := sortUniq (splitWs b)
  let inter := wa.filter (fun w => decide (w ∈ wb))
  let da := wa.filter (fun w => !decide (w ∈ wb))
  let db := wb.filter (fun w => !decide (w ∈ wa))
  let t0 := joinWords inter
  let t1 := joinWords (inter ++ da)
  let t2 := joinWords (inter ++ db)
  max (ratio_score t0 t1) (max (ratio_score t0 t2) (ratio_score t1 t2))

/-! ## Matcher (src/sync.py lines 38-72) -/

/-- `name_match` (lines 38-39):
`fuzz.partial_ratio(simplify(tidal_track.name), simplify(spotify_track['name'])) >= 90`. -/
def name_match (t : TidalTrack) (s : SpotifyTrack) : Bool :=
  90 ≤ window_score (simplify t.name).data (simplify s.name).data

/-- The inner helpers of `artist_match` (lines 43-53): concatenate every
artist name followed by a space, then simplify. -/
def joinArtistNames (names : List String) : String :=
  names.foldl (fun acc n => acc ++ n ++ " ") ""

def get_tidal_artists (t : TidalTrack) : String :=
  simplify (joinArtistNames (t.artists.map TidalArtist.name))

def get_spotify_artists (s : SpotifyTrack) : String :=
  simplify (joinArtistNames (s.artists.map SpotifyArtist.name))

/-- `artist_match` (lines 42-55):
`fuzz.token_set_ratio(get_tidal_artists(..), get_spotify_artists(..)) >= 80`. -/
def artist_match (t : TidalTrack) (s : SpotifyTrack) : Bool :=
  80 ≤ token_set_score (get_tidal_artists t).data (get_spotify_artists s).data

/-- `duration_match` (lines 58-59):
`abs(tidal_track.duration - spotify_track['duration_ms'] / 1000) < tolerance`
with the default `tolerance=2`; Python's true division of the integer
millisecond count by 1000 is exact rational division here. -/
def duration_match (t : TidalTrack) (s : SpotifyTrack) : Bool :=
  |(t.duration : ℚ) - (s.duration_ms : ℚ) / 1000| < 2

/-- `album_match` (lines 62-63):
`fuzz.ratio(simplify(tidal_track.album.name), simplify(spotify_track['album']['name'])) >= 90`. -/
def album_match (t : TidalTrack) (s : SpotifyTrack) : Bool :=
  90 ≤ ratio_score (simplify t.album.name).data (simplify s.album.name).data

/-- The number of true entries of the signal list built in `match`
(lines 66-72). -/
def matchCount (t : TidalTrack) (s : SpotifyTrack) : Nat :=
  [name_match t s, artist_match t s, duration_match t s, album_match t s].count true

/-- The Matcher verdict `match` (lines 66-72):
`[name_matching, artist_matching, duration_matching, album_matching].count(True) >= 3`.
(`match` is a reserved word in Lean, hence the name.) -/
def track_match (t : TidalTrack) (s : SpotifyTrack) : Bool :=
  3 ≤ matchCount t s

/-! ## Resolver (src/sync.py lines 75-81) -/

/-- The search query built by `tidal_search` (lines 76-78):
`query = simplify(name)`, prefixed by the simplified first artist name
and a space when its length is at most 25.  `spotify_track['artists'][0]`
raises on an empty artist list, modelled by `none`. -/
def tidal_query (s : SpotifyTrack) : Option String :=
  let query := simplify s.name
  if query.length ≤ 25 then
    match s.artists with
    | [] => none
    | a :: _ => some (simplify a.name ++ " " ++ query)
  else
    some query

/-- `tidal_search` (lines 75-81) with the outward search call passed in as
a function: iterate over the returned candidates and return the first one
satisfying the Matcher, `none` when no candidate matches. -/
def tidal_search (search : String → List TidalTrack) (s : SpotifyTrack) :
    Option TidalTrack :=
  match tidal_query s with
  | none => none
  | some q => (search q).find? (fun tr => track_match tr s)

/-- `tidal_search` with a fallible search call: the body has no
`try`/`except`, so an exception from `tidal_session.search` propagates
out of the function (and an empty artist list raises `IndexError`). -/
def tidal_search_exc (search : String → Except String (List TidalTrack))
    (s : SpotifyTrack) : Except String (Option TidalTrack) :=
  match tidal_query s with
  | none => Except.error "IndexError"
  | some q =>
    match search q with
    | Except.error e => Except.error e
    | Except.ok tracks => Except.ok (tracks.find? (fun tr => track_match tr s))

/-! ## Concurrent resolution phase: `call_async` (src/sync.py lines 90-96)

`call_async` preallocates `results = len(spotify_tracks) * [None]`, runs
`pool.map(partial(tidal_search, **kwargs), spotify_tracks)` on a pool of
50 workers, and writes `results[index] = result` for each index.
`Pool.map` keys every worker result by the index of its input, however
the workers are scheduled; this is modelled by an explicit completion
order (a permutation of the indices) with each completion writing the
resolution of track `i` into slot `i`. -/

def call_async (f : SpotifyTrack → Option TidalTrack) (tracks : List SpotifyTrack)
    (order : List Nat) : List (Option TidalTrack) :=
  order.foldl
    (fun results i =>
      results.set i (match tracks[i]? with
        | some tr => f tr
        | none => none))
    (List.replicate tracks.length none)

/-- `call_async` when a worker raises: `multiprocessing.Pool.map`
re-raises a worker's exception in the parent when collecting the results,
so the first failing resolution aborts the whole call. -/
def call_async_exc (search : String → Except String (List TidalTrack)) :
    List SpotifyTrack → Except String (List (Option TidalTrack))
  | [] => Except.ok []
  | t :: rest =>
    match tidal_search_exc search t with
    | Except.error e => Except.error e
    | Except.ok r =>
      match call_async_exc search rest with
      | Except.error e => Except.error e
      | Except.ok rs => Except.ok (r :: rs)

/-! ## Sync pipeline write (src/sync.py lines 84-87 and 111-120) -/

/-- The sync plan built by the loop in `sync_playlist` (lines 114-119):
the ids of the resolved tracks, in source order, skipping unresolved
ones. -/
def sync_plan (tidal_tracks : List (Option TidalTrack)) : List Nat :=
  tidal_tracks.filterMap (fun o => o.map TidalTrack.id)

/-- `set_tidal_playlist` (lines 84-87): looks the playlist up and calls
`playlist.add(list(track_ids))`.  `tidalapi`'s `UserPlaylist.add` is not
repository code; it POSTs the given ids to the playlist's items endpoint,
appending them to the playlist's existing items, so the state update on
the destination track list is concatenation. -/
def set_tidal_playlist (current : List Nat) (track_ids : List Nat) : List Nat :=
  current ++ track_ids

/-- The single destination write performed at the end of `sync_playlist`
(line 120), acting on the destination playlist's current track list. -/
def sync_playlist_write (current : List Nat) (tidal_tracks : List (Option TidalTrack)) :
    List Nat :=
  set_tidal_playlist current (sync_plan tidal_tracks)

/-! ## Syntactic predicates on normalized text

These decidable predicates are the side conditions of the theorems below:
whether a literal pattern occurs somewhere, whether an edition word
occurs, whether the featuring-clause pattern matches anywhere, and the
position of the first match of the no-parenthesis fallback group. -/

/-- Some occurrence of `pat` starts somewhere in `l`. -/
def hasPat (pat : List Char) : List Char → Bool
  | [] => patHere pat []
  | c :: rest => patHere pat (c :: rest) || hasPat pat rest

/-- Some edition/version marker word occurs in `l`. -/
def hasEdition : List Char → Bool
  | [] => false
  | c :: rest => (editionHere (c :: rest)).isSome || hasEdition rest

/-- The featuring-clause pattern matches at some position of `l`. -/
def hasFeat : List Char → Bool
  | [] => false
  | c :: rest => (tryHere (c :: rest)).isSome || hasFeat rest

/-- Position of the first match of the group `(ft.|feat.|prod.)`. -/
def firstG2 : List Char → Option Nat
  | [] => none
  | c :: rest => if g2Here (c :: rest) then some 0 else (firstG2 rest).map (· + 1)

/-! ## Sample records used by the witnesses -/

def tidalSample : TidalTrack :=
  ⟨5, "abc", [⟨"zed"⟩], ⟨"aaa"⟩, 100⟩

/-- Same title and artist as `tidalSample`, duration within tolerance,
different album: exactly three signals hold. -/
def spotifySample3 : SpotifyTrack :=
  ⟨"abc", [⟨"zed"⟩], ⟨"bbb"⟩, 100000⟩

/-- Same title and artist as `tidalSample`, duration far off, different
album: exactly two signals hold. -/
def spotifySample2 : SpotifyTrack :=
  ⟨"abc", [⟨"zed"⟩], ⟨"bbb"⟩, 200000⟩

/-! ## Helper lemmas -/

/-- Evaluation form of `duration_match`: the exact rational comparison is
equivalent to an integer comparison of millisecond counts. -/
theorem duration_match_eq_int (t : TidalTrack) (s : SpotifyTrack) :
    duration_match t s =
      decide (|1000 * (t.duration : ℤ) - (s.duration_ms : ℤ)| < 2000) := by
  have h1000 : (0 : ℚ) < 1000 := by norm_num
  have hrw : (t.duration : ℚ) - (s.duration_ms : ℚ) / 1000 =
      (1000 * (t.duration : ℚ) - (s.duration_ms : ℚ)) / 1000 := by ring
  have key : (|(t.duration : ℚ) - (s.duration_ms : ℚ) / 1000| < 2) ↔
      |1000 * (t.duration : ℤ) - (s.duration_ms : ℤ)| < 2000 := by
    rw [hrw, abs_div, abs_of_pos h1000, div_lt_iff₀ h1000]
    norm_num
    constructor
    · intro h
      exact_mod_cast h
    · intro h
      exact_mod_cast h
  simp only [duration_match, key]

/-- Writes into index-keyed slots do not change the length of the result
list. -/
theorem foldl_set_length {α : Type} (g : Nat → α) (order : List Nat) (init : List α) :
    (order.foldl (fun acc i => acc.set i (g i)) init).length = init.length := by
  induction order generalizing init with
  | nil => rfl
  | cons i rest ih => simp [List.foldl_cons, ih]

/-- Element view of index-keyed writes: slot `j` holds `g j` as soon as
some completion wrote it, independently of the write order. -/
theorem foldl_set_getElem? {α : Type} (g : Nat → α) (order : List Nat) (init : List α)
    (j : Nat) :
    (order.foldl (fun acc i => acc.set i (g i)) init)[j]? =
      if j ∈ order ∧ j < init.length then some (g j) else init[j]? := by
  induction order generalizing init with
  | nil => simp
  | cons i rest ih =>
    rw [List.foldl_cons, ih, List.length_set]
    by_cases hjr : j ∈ rest
    · by_cases hjl : j < init.length
      · simp [hjr, hjl]
      · have h1 : (init.set i (g i))[j]? = none :=
          List.getElem?_eq_none (by simpa using Nat.le_of_not_lt hjl)
        have h2 : init[j]? = none := List.getElem?_eq_none (Nat.le_of_not_lt hjl)
        simp [hjr, hjl, h1, h2]
    · by_cases hij : i = j
      · subst hij
        by_cases hjl : i < init.length <;>
          simp [hjr, hjl, List.getElem?_set, List.getElem?_eq_none, Nat.le_of_not_lt]
      · simp [hjr, hij, List.getElem?_set, Ne.symm hij]

/-- The allowed characters are ASCII and contain no uppercase letter. -/
theorem isAllowed_props {c : Char} (h : isAllowed c = true) :
    c.toNat < 128 ∧ ¬(65 ≤ c.toNat ∧ c.toNat ≤ 90) := by
  simp only [isAllowed, Bool.or_eq_true, Bool.and_eq_true, decide_eq_true_eq,
    beq_iff_eq] at h
  omega

theorem allowed_of_mem_asciiFilter {c : Char} {l : List Char}
    (h : c ∈ asciiFilter l) : isAllowed c = true :=
  (List.mem_filter.mp h).2

theorem asciiFilter_id {l : List Char} (h : ∀ c ∈ l, isAllowed c = true) :
    asciiFilter l = l :=
  List.filter_eq_self.mpr h

theorem unidecodeList_id {l : List Char} (h : ∀ c ∈ l, isAllowed c = true) :
    unidecodeList l = l := by
  induction l with
  | nil => rfl
  | cons c rest ih =>
    have hc : unidecodeChar c = [c] := by
      simp [unidecodeChar, (isAllowed_props (h c (List.mem_cons_self c rest))).1]
    show ((c :: rest).map unidecodeChar).flatten = c :: rest
    rw [List.map_cons, List.flatten_cons, hc]
    have := ih (fun x hx => h x (List.mem_cons_of_mem c hx))
    simpa [unidecodeList] using this

theorem asciiLower_id {l : List Char} (h : ∀ c ∈ l, isAllowed c = true) :
    asciiLower l = l := by
  induction l with
  | nil => rfl
  | cons c rest ih =>
    have hc : asciiLowerChar c = c := by
      simp [asciiLowerChar, (isAllowed_props (h c (List.mem_cons_self c rest))).2]
    show asciiLowerChar c :: rest.map asciiLowerChar = c :: rest
    rw [hc]
    have := ih (fun x hx => h x (List.mem_cons_of_mem c hx))
    simpa [asciiLower] using this

theorem replaceAllAux_id {pat : List Char} :
    ∀ (fuel : Nat) {l : List Char}, hasPat pat l = false → replaceAllAux pat fuel l = l := by
  intro fuel
  induction fuel with
  | zero => intro l _; rfl
  | succ fuel ih =>
    intro l hl
    cases l with
    | nil =>
      have hp : patHere pat [] = false := hl
      simp [replaceAllAux, hp]
    | cons c rest =>
      have hp : patHere pat (c :: rest) = false := by
        have := hl
        simp only [hasPat, Bool.or_eq_false_iff] at this
        exact this.1
      have hr : hasPat pat rest = false := by
        have := hl
        simp only [hasPat, Bool.or_eq_false_iff] at this
        exact this.2
      simp [replaceAllAux, hp, ih hr]

theorem replaceAll_id {pat : List Char} {l : List Char} (h : hasPat pat l = false) :
    replaceAll pat l = l :=
  replaceAllAux_id l.length h

theorem editionSubAux_id :
    ∀ (fuel : Nat) {l : List Char}, hasEdition l = false → editionSubAux fuel l = l := by
  intro fuel
  induction fuel with
  | zero => intro l _; rfl
  | succ fuel ih =>
    intro l hl
    cases l with
    | nil => rfl
    | cons c rest =>
      have h1 : editionHere (c :: rest) = none := by
        have := hl
        simp only [hasEdition, Bool.or_eq_false_iff] at this
        exact Option.not_isSome_iff_eq_none.mp (by simp [this.1])
      have h2 : hasEdition rest = false := by
        have := hl
        simp only [hasEdition, Bool.or_eq_false_iff] at this
        exact this.2
      simp [editionSubAux, h1, ih h2]

theorem editionSub_id {l : List Char} (h : hasEdition l = false) : editionSub l = l :=
  editionSubAux_id l.length h

theorem featSubAux_id :
    ∀ (fuel : Nat) {l : List Char}, hasFeat l = false → featSubAux fuel l = l := by
  intro fuel
  induction fuel with
  | zero => intro l _; rfl
  | succ fuel ih =>
    intro l hl
    cases l with
    | nil => rfl
    | cons c rest =>
      have h1 : tryHere (c :: rest) = none := by
        have := hl
        simp only [hasFeat, Bool.or_eq_false_iff] at this
        exact Option.not_isSome_iff_eq_none.mp (by simp [this.1])
      have h2 : hasFeat rest = false := by
        have := hl
        simp only [hasFeat, Bool.or_eq_false_iff] at this
        exact this.2
      simp [featSubAux, h1, ih h2]

theorem featSub_id {l : List Char} (h : hasFeat l = false) : featSub l = l :=
  featSubAux_id l.length h

/-! ## Claims -/

/-- Claim C1: the Matcher verdict is true iff at least 3 of the 4 boolean
signals (title, artist, duration, album) are true; a pair with exactly 2
true signals yields false and a pair with exactly 3 true signals yields
true. -/
theorem claim_C1 (t : TidalTrack) (s : SpotifyTrack) :
    (track_match t s = true ↔ 3 ≤ matchCount t s) ∧
    (matchCount t s = 2 → track_match t s = false) ∧
    (matchCount t s = 3 → track_match t s = true) := by
  refine ⟨by simp [track_match], fun h => by simp [track_match, h], fun h => by
    simp [track_match, h]⟩

theorem claim_C1_witness :
    matchCount tidalSample spotifySample3 = 3 ∧
    track_match tidalSample spotifySample3 = true ∧
    matchCount tidalSample spotifySample2 = 2 ∧
    track_match tidalSample spotifySample2 = false := by
  have h3 : matchCount tidalSample spotifySample3 = 3 := by
    simp only [matchCount, duration_match_eq_int]
    decide
  have h2 : matchCount tidalSample spotifySample2 = 2 := by
    simp only [matchCount, duration_match_eq_int]
    decide
  exact ⟨h3, (claim_C1 tidalSample spotifySample3).2.2 h3, h2,
    (claim_C1 tidalSample spotifySample2).2.1 h2⟩

/-- Claim C6: `duration_match` holds iff the absolute difference between
the source duration in seconds (exact division of `duration_ms` by 1000)
and the candidate duration is strictly below 2; a difference of exactly 2
seconds does not match and a difference of 1.999 seconds does. -/
theorem claim_C6 (t : TidalTrack) (s : SpotifyTrack) :
    (duration_match t s = true ↔
      |(t.duration : ℚ) - (s.duration_ms : ℚ) / 1000| < 2) ∧
    (|(t.duration : ℚ) - (s.duration_ms : ℚ) / 1000| = 2 →
      duration_match t s = false) ∧
    (|(t.duration : ℚ) - (s.duration_ms : ℚ) / 1000| = 1999 / 1000 →
      duration_match t s = true) := by
  refine ⟨by simp [duration_match], fun h => ?_, fun h => ?_⟩
  · have : ¬ |(t.duration : ℚ) - (s.duration_ms : ℚ) / 1000| < 2 := by
      rw [h]
      exact lt_irrefl 2
    simp [duration_match, this]
  · have : |(t.duration : ℚ) - (s.duration_ms : ℚ) / 1000| < 2 := by
      rw [h]
      norm_num
    simp [duration_match, this]

theorem claim_C6_witness :
    duration_match ⟨5, "a", [], ⟨"b"⟩, 182⟩ ⟨"a", [], ⟨"b"⟩, 180000⟩ = false ∧
    duration_match ⟨5, "a", [], ⟨"b"⟩, 180⟩ ⟨"a", [], ⟨"b"⟩, 181999⟩ = true := by
  constructor
  · exact (claim_C6 ⟨5, "a", [], ⟨"b"⟩, 182⟩ ⟨"a", [], ⟨"b"⟩, 180000⟩).2.1 (by norm_num)
  · exact (claim_C6 ⟨5, "a", [], ⟨"b"⟩, 180⟩ ⟨"a", [], ⟨"b"⟩, 181999⟩).2.2 (by norm_num)

/-- Claim C7: the Resolver's search query is the normalized title when
that is longer than 25 characters, and the normalized first artist name,
a space, and the normalized title when it has length at most 25. -/
theorem claim_C7 (s : SpotifyTrack) :
    (25 < (simplify s.name).length → tidal_query s = some (simplify s.name)) ∧
    (∀ a rest, s.artists = a :: rest → (simplify s.name).length ≤ 25 →
      tidal_query s = some (simplify a.name ++ " " ++ simplify s.name)) := by
  constructor
  · intro h
    simp [tidal_query, Nat.not_le.mpr h]
  · intro a rest ha h
    simp [tidal_query, h, ha]

theorem claim_C7_witness :
    tidal_query ⟨"Yes", [⟨"Abba"⟩], ⟨"x"⟩, 0⟩ = some "abba yes" ∧
    tidal_query ⟨"Supercalifragilisticexpialidocious", [⟨"Abba"⟩], ⟨"x"⟩, 0⟩ =
      some "supercalifragilisticexpialidocious" := by
  constructor
  · have h := (claim_C7 ⟨"Yes", [⟨"Abba"⟩], ⟨"x"⟩, 0⟩).2 ⟨"Abba"⟩ [] rfl (by decide)
    rw [h]
    decide
  · have h := (claim_C7 ⟨"Supercalifragilisticexpialidocious", [⟨"Abba"⟩], ⟨"x"⟩, 0⟩).1
      (by decide)
    rw [h]
    decide

/-- Claim C5 fails on the code: removing the parenthesized featuring
clause leaves the space before the opening parenthesis in place, so the
two normal forms differ by a trailing space. -/
theorem claim_C5_cex : simplify "Song (feat. X)" ≠ simplify "Song" := by
  decide

/-- Claim C5 (amended): normalize of "Song (feat. X)" equals normalize of
"Song" followed by a single trailing space. -/
theorem claim_C5_amended : simplify "Song (feat. X)" = simplify "Song" ++ " " := by
  decide

/-- Claim C3 fails on the code: `set_tidal_playlist` calls
`playlist.add`, which appends, so a destination playlist that already
holds track 99 ends up with the plan appended after it rather than
replaced by it. -/
theorem claim_C3_cex :
    sync_playlist_write [99] [some ⟨1, "a", [], ⟨"b"⟩, 100⟩] = [99, 1] ∧
    sync_playlist_write [99] [some ⟨1, "a", [], ⟨"b"⟩, 100⟩] ≠
      sync_plan [some ⟨1, "a", [], ⟨"b"⟩, 100⟩] := by
  constructor <;> decide

/-- Claim C3 (amended): the single write call appends the sync plan (the
Found identifiers in source order) to the destination playlist's current
track list; the result equals exactly the sync plan precisely when the
destination playlist was empty before the write, as it is in this program
because the reconciler always creates the destination playlist afresh
immediately before syncing. -/
theorem claim_C3_amended (current : List Nat) (tracks : List (Option TidalTrack)) :
    sync_playlist_write current tracks = current ++ sync_plan tracks ∧
    (current = [] → sync_playlist_write current tracks = sync_plan tracks) := by
  refine ⟨rfl, ?_⟩
  rintro rfl
  rfl

theorem claim_C3_witness :
    sync_playlist_write [] [some ⟨1, "a", [], ⟨"b"⟩, 100⟩, none] = [1] := by
  have h := (claim_C3_amended [] [some ⟨1, "a", [], ⟨"b"⟩, 100⟩, none]).2 rfl
  rw [h]
  decide

/-- Claim C2 fails on the code: `str.replace` resumes scanning after each
replacement, so one pass over a string with overlapping join markers can
leave a fresh marker behind.  Here `normalize(" x x ") = " x "` but
`normalize(" x ") = " "`. -/
theorem claim_C2_cex : simplify (simplify " x x ") ≠ simplify " x x " := by
  decide

/-- Claim C2 (amended): the Normalizer is idempotent on every string
whose normalized form contains no join marker, no edition word and no
featuring-clause match; in general idempotence fails (see the
counterexample normalize(" x x ")).  The character filter, lowercasing
and transliteration passes are always identities on normalizer output,
so these three syntactic side conditions are exactly what a second pass
can act on. -/
theorem claim_C2_amended (s : String)
    (h1 : hasPat [' ', 'x', ' '] (simplify s).data = false)
    (h2 : hasPat [' ', 'v', 's', ' '] (simplify s).data = false)
    (h3 : hasPat [' ', '-', ' '] (simplify s).data = false)
    (h4 : hasEdition (simplify s).data = false)
    (h5 : hasFeat (simplify s).data = false) :
    simplify (simplify s) = simplify s := by
  have hall : ∀ c ∈ (simplify s).data, isAllowed c = true := by
    intro c hc
    have hc' : c ∈ asciiFilter (featSub (preStrip s)) := hc
    exact allowed_of_mem_asciiFilter hc'
  have e1 : unidecodeList (simplify s).data = (simplify s).data := unidecodeList_id hall
  have e2 : asciiLower (simplify s).data = (simplify s).data := asciiLower_id hall
  have e3 : replaceAll [' ', 'x', ' '] (simplify s).data = (simplify s).data :=
    replaceAll_id h1
  have e4 : replaceAll [' ', 'v', 's', ' '] (simplify s).data = (simplify s).data :=
    replaceAll_id h2
  have e5 : replaceAll [' ', '-', ' '] (simplify s).data = (simplify s).data :=
    replaceAll_id h3
  have e6 : editionSub (simplify s).data = (simplify s).data := editionSub_id h4
  have e7 : featSub (simplify s).data = (simplify s).data := featSub_id h5
  have e8 : asciiFilter (simplify s).data = (simplify s).data := asciiFilter_id hall
  show String.mk (asciiFilter (featSub (editionSub (replaceAll [' ', '-', ' ']
    (replaceAll [' ', 'v', 's', ' '] (replaceAll [' ', 'x', ' ']
      (asciiLower (unidecodeList (simplify s).data)))))))) = simplify s
  rw [e1, e2, e3, e4, e5, e6, e7, e8]

theorem claim_C2_witness : simplify (simplify "Song A") = simplify "Song A" :=
  claim_C2_amended "Song A" (by decide) (by decide) (by decide) (by decide) (by decide)

/-! ## The featuring-clause regex with no closing parenthesis -/

theorem lastIdxOf_mem {c : Char} :
    ∀ {l : List Char} {k : Nat}, lastIdxOf c l = some k → c ∈ l := by
  intro l
  induction l with
  | nil => intro k h; simp [lastIdxOf] at h
  | cons a rest ih =>
    intro k h
    unfold lastIdxOf at h
    cases hr : lastIdxOf c rest with
    | some k' => exact List.mem_cons_of_mem a (ih hr)
    | none =>
      rw [hr] at h
      by_cases hac : a == c
      · cases eq_of_beq hac
        exact List.mem_cons_self _ _
      · simp [hac] at h

theorem tryACore_eq_none {off : Nat} {rest : List Char} (h : ')' ∉ rest) :
    tryACore off rest = none := by
  unfold tryACore
  cases hg : g1Here rest with
  | none => rfl
  | some g =>
    cases hl : lastIdxOf ')' ((rest.drop g).takeWhile (fun c => c != '\n')) with
    | none => simp [hl]
    | some k =>
      exfalso
      have hmem : ')' ∈ (rest.drop g).takeWhile (fun c => c != '\n') := lastIdxOf_mem hl
      have hmem2 : ')' ∈ rest.drop g := (List.takeWhile_prefix _).subset hmem
      exact h (List.mem_of_mem_drop hmem2)

theorem tryA_eq_none {l : List Char} (h : ')' ∉ l) : tryA l = none := by
  cases l with
  | nil => rfl
  | cons c rest =>
    have hr : ')' ∉ rest := fun hm => h (List.mem_cons_of_mem c hm)
    unfold tryA
    by_cases hc : c = '('
    · simp only [hc, if_true]
      rw [tryACore_eq_none hr, tryACore_eq_none (hc ▸ h)]
    · simp only [hc, if_false]
      exact tryACore_eq_none h

theorem tryHere_no_close {l : List Char} (h : ')' ∉ l) :
    tryHere l = (if g2Here l then some (nlFreeLen l) else none) := by
  unfold tryHere
  rw [tryA_eq_none h]

theorem nlFreeLen_all {l : List Char} (h : '\n' ∉ l) : nlFreeLen l = l.length := by
  unfold nlFreeLen
  rw [List.takeWhile_eq_self_iff.mpr ?_]
  intro x hx
  exact bne_iff_ne.mpr (fun hxe => h (hxe ▸ hx))

/-- With no `)` and no newline anywhere, the first alternative of the
featuring-clause pattern can never match, and the second alternative
consumes everything from the first `(ft.|feat.|prod.)` match to the end
of the string: the substitution truncates at the first match position,
and is the identity when there is none. -/
theorem featSubAux_take :
    ∀ (fuel : Nat) {l : List Char}, l.length ≤ fuel → ')' ∉ l → '\n' ∉ l →
      featSubAux fuel l =
        (match firstG2 l with
         | some j => l.take j
         | none => l) := by
  intro fuel
  induction fuel with
  | zero =>
    intro l hl _ _
    have : l = [] := List.eq_nil_of_length_eq_zero (Nat.le_zero.mp hl)
    subst this
    rfl
  | succ fuel ih =>
    intro l hl hc hn
    cases l with
    | nil => rfl
    | cons c rest =>
      have hcr : ')' ∉ rest := fun hm => hc (List.mem_cons_of_mem c hm)
      have hnr : '\n' ∉ rest := fun hm => hn (List.mem_cons_of_mem c hm)
      show (match tryHere (c :: rest) with
        | some e => featSubAux fuel ((c :: rest).drop e)
        | none => c :: featSubAux fuel rest) = _
      rw [tryHere_no_close hc]
      by_cases hg : g2Here (c :: rest)
      · simp only [hg, if_true]
        rw [nlFreeLen_all hn, List.drop_length]
        have h0 : featSubAux fuel ([] : List Char) = [] := by
          have := ih (l := []) (by simp) (by simp) (by simp)
          simpa using this
        rw [h0]
        simp [firstG2, hg]
      · simp only [hg, if_false]
        rw [ih (Nat.le_of_succ_le_succ hl) hcr hnr]
        simp only [firstG2, hg, if_false]
        cases hf : firstG2 rest with
        | none => simp
        | some j => simp [List.take_succ_cons]

theorem featSub_take {l : List Char} (hc : ')' ∉ l) (hn : '\n' ∉ l) :
    featSub l =
      (match firstG2 l with
       | some j => l.take j
       | none => l) :=
  featSubAux_take l.length (Nat.le_refl _) hc hn

/-- A match of the fallback group somewhere gives a first match at or
before that position. -/
theorem firstG2_le :
    ∀ (l : List Char) (i : Nat), g2Here (l.drop i) = true →
      ∃ j, j ≤ i ∧ firstG2 l = some j := by
  intro l
  induction l with
  | nil =>
    intro i h
    rw [List.drop_nil] at h
    simp [g2Here, isFtDot, isFeatDot, isProdDot] at h
  | cons c rest ih =>
    intro i h
    by_cases hg : g2Here (c :: rest)
    · exact ⟨0, Nat.zero_le i, by simp [firstG2, hg]⟩
    · cases i with
      | zero =>
        rw [List.drop_zero] at h
        exact absurd h (by simp [hg])
      | succ i' =>
        have h' : g2Here (rest.drop i') = true := by simpa using h
        obtain ⟨j, hj, hfj⟩ := ih i' h'
        exact ⟨j + 1, Nat.succ_le_succ hj, by simp [firstG2, hg, hfj]⟩

/-- Claim C8 fails on the code: the fallback branch of the featuring
regex, which handles a marker with no closing parenthesis, covers only
`ft.`, `feat.` and `prod.` — not `(with`.  On "song (with x" the removal
step changes nothing (the later character filter merely drops the
parenthesis). -/
theorem claim_C8_cex :
    featSub "song (with x".data = "song (with x".data ∧
    featSub "song (with x".data ≠ "song ".data := by
  constructor <;> decide

/-- Claim C8 (amended): in the featuring-clause removal step, for a
string with no `)` (and no newline), everything from the first `ft.`,
`feat.` or `prod.` marker to the end of the string is removed; a `(with`
marker without a closing parenthesis is never removed, because the
no-parenthesis fallback group omits it. -/
theorem claim_C8_amended (l : List Char) (hc : ')' ∉ l) (hn : '\n' ∉ l) :
    (∀ j, firstG2 l = some j → featSub l = l.take j) ∧
    (firstG2 l = none → featSub l = l) := by
  have h := featSub_take hc hn
  constructor
  · intro j hj
    rw [h, hj]
  · intro hj
    rw [h, hj]

theorem claim_C8_witness :
    featSub "song feat x".data = "song ".data ∧
    featSub "hello (with you".data = "hello (with you".data := by
  constructor
  · have h := (claim_C8_amended "song feat x".data (by decide) (by decide)).1 5 (by decide)
    rw [h]
    decide
  · exact (claim_C8_amended "hello (with you".data (by decide) (by decide)).2 (by decide)

/-- Claim C10 fails on the code: the featuring regex runs only after
edition-word removal, so an input whose `ft` is followed by characters
that the earlier passes delete is not stripped.  In "aftmixed" the `ft`
is followed by "mixed"; after edition-word removal the intermediate
string is "aft", where `ft.` no longer matches (the dot needs one more
character), so the result keeps the `ft` instead of ending before it. -/
theorem claim_C10_cex :
    simplify "aftmixed" = "aft" ∧ simplify "aftmixed" ≠ "a" := by
  constructor <;> decide

/-- Claim C10 (amended): for a string whose intermediate form after
transliteration, lowercasing, join-marker replacement and edition-word
removal still contains `f`, `t` followed by at least one character, and
which contains no `)` and no newline, the Normalizer deletes everything
from the first marker match (at or before that `ft`) to the end: the
markers need no opening parenthesis, no word boundary and no literal
dot. -/
theorem claim_C10_amended (s : String) (i : Nat)
    (hc : ')' ∉ preStrip s) (hn : '\n' ∉ preStrip s)
    (hft : isFtDot ((preStrip s).drop i) = true) :
    ∃ j, j ≤ i ∧ firstG2 (preStrip s) = some j ∧
      simplify s = String.mk (asciiFilter ((preStrip s).take j)) := by
  have hg : g2Here ((preStrip s).drop i) = true := by
    simp [g2Here, hft]
  obtain ⟨j, hj, hfj⟩ := firstG2_le (preStrip s) i hg
  refine ⟨j, hj, hfj, ?_⟩
  show String.mk (asciiFilter (featSub (preStrip s))) = _
  rw [featSub_take hc hn, hfj]

theorem claim_C10_witness :
    simplify "after" = "a" ∧ firstG2 (preStrip "after") = some 1 := by
  obtain ⟨j, hj, hfj, he⟩ := claim_C10_amended "after" 1 (by decide) (by decide) (by decide)
  have h1 : firstG2 (preStrip "after") = some 1 := by decide
  have hj1 : j = 1 := by
    rw [h1] at hfj
    injection hfj with hinj
    omega
  subst hj1
  refine ⟨?_, hfj⟩
  rw [he]
  decide

/-- Claim C4: the concurrent resolution phase returns one outcome per
source track, with the outcome at position i the resolution of track i,
for every completion order of the resolution tasks. -/
theorem claim_C4 (f : SpotifyTrack → Option TidalTrack) (tracks : List SpotifyTrack)
    (order : List Nat) (h : order.Perm (List.range tracks.length)) :
    call_async f tracks order = tracks.map f ∧
    (call_async f tracks order).length = tracks.length := by
  constructor
  · apply List.ext_getElem?
    intro j
    unfold call_async
    rw [foldl_set_getElem?]
    have hmem : j ∈ order ↔ j < tracks.length := by
      rw [h.mem_iff, List.mem_range]
    by_cases hj : j < tracks.length
    · have hget : tracks[j]? = some tracks[j] := List.getElem?_eq_getElem hj
      simp [hmem, hj, hget]
    · have h1 : tracks[j]? = none := List.getElem?_eq_none (Nat.le_of_not_lt hj)
      simp [hmem, hj, h1, List.getElem?_replicate]
  · unfold call_async
    rw [foldl_set_length]
    simp

theorem claim_C4_witness :
    List.Perm [1, 0] (List.range 2) ∧
    call_async (fun _ => none) [spotifySample3, spotifySample2] [1, 0] =
      [none, none] := by
  refine ⟨by decide, ?_⟩
  have h := (claim_C4 (fun _ => none) [spotifySample3, spotifySample2] [1, 0]
    (by decide)).1
  rw [h]
  rfl

/-- Claim C9 fails on the code: `tidal_search` has no exception handling,
so a failing destination search aborts the whole resolution phase
(`Pool.map` re-raises the worker's exception) instead of yielding
NotFound for that track while the others complete. -/
theorem claim_C9_cex :
    call_async_exc
        (fun q => if q = "b boomer" then Except.error "boom" else Except.ok [])
        [⟨"aaaa", [⟨"a"⟩], ⟨"x"⟩, 0⟩, ⟨"boomer", [⟨"b"⟩], ⟨"x"⟩, 0⟩] =
      Except.error "boom" ∧
    call_async_exc
        (fun q => if q = "b boomer" then Except.error "boom" else Except.ok [])
        [⟨"aaaa", [⟨"a"⟩], ⟨"x"⟩, 0⟩, ⟨"boomer", [⟨"b"⟩], ⟨"x"⟩, 0⟩] ≠
      Except.ok [none, none] := by
  constructor <;> decide

/-- Claim C9 (amended): when the destination search call for one source
track fails, the exception propagates out of that track's `tidal_search`
and out of the pool, aborting the resolution phase for the whole
playlist: the error is not converted into a NotFound outcome. -/
theorem claim_C9_amended (search : String → Except String (List TidalTrack))
    (pre post : List SpotifyTrack) (s : SpotifyTrack) (e : String)
    (hok : ∀ x ∈ pre, ∃ r, tidal_search_exc search x = Except.ok r)
    (herr : tidal_search_exc search s = Except.error e) :
    call_async_exc search (pre ++ s :: post) = Except.error e := by
  induction pre with
  | nil =>
    simp only [List.nil_append, call_async_exc, herr]
  | cons x pre ih =>
    obtain ⟨r, hr⟩ := hok x (List.mem_cons_self x pre)
    have ih' := ih (fun y hy => hok y (List.mem_cons_of_mem x hy))
    simp only [List.cons_append, call_async_exc, List.append_eq, hr, ih']

theorem claim_C9_witness :
    call_async_exc
        (fun q => if q = "b boom" then Except.error "down" else Except.ok [])
        [⟨"aaaa", [⟨"a"⟩], ⟨"x"⟩, 0⟩, ⟨"boom", [⟨"b"⟩], ⟨"x"⟩, 0⟩,
          ⟨"cccc", [⟨"c"⟩], ⟨"x"⟩, 0⟩] =
      Except.error "down" := by
  exact claim_C9_amended
    (fun q => if q = "b boom" then Except.error "down" else Except.ok [])
    [⟨"aaaa", [⟨"a"⟩], ⟨"x"⟩, 0⟩] [⟨"cccc", [⟨"c"⟩], ⟨"x"⟩, 0⟩]
    ⟨"boom", [⟨"b"⟩], ⟨"x"⟩, 0⟩ "down"
    (by
      intro x hx
      have : x = ⟨"aaaa", [⟨"a"⟩], ⟨"x"⟩, 0⟩ := by
        simpa using hx
      subst this
      exact ⟨none, rfl⟩)
    (by decide)

end SpotifyToTidal
